import Mathlib

/-!
Shallow embedding of the routbox input-to-action pipeline
(src/key_processor.rs, src/serial.rs, src/winusb.rs, src/key_sender.rs,
src/config.rs, src/main.rs), together with theorems checking the
specification's claims about it.

String operations that the source performs through the Rust standard
library (`split`, `to_uppercase`, `starts_with`, decimal parsing) are
embedded as structural recursions over the string's character list, so
that every definition evaluates by kernel reduction on concrete inputs.
-/

namespace Routbox

/-- Trigger timing of a mapping (src/config.rs, `KeyTriggerTiming`). -/
inductive KeyTriggerTiming
  | OnPress
  | OnHold
  | OnRelease
deriving DecidableEq

/-- Logical device input event, as declared in the repository's event
module and consumed by src/key_processor.rs (`InputEvent::KeyPressed`,
`InputEvent::KeyReleased`). -/
inductive InputEvent
  | KeyPressed (k : String)
  | KeyReleased (k : String)
deriving DecidableEq

/-- Output action of the processor (src/key_sender.rs, `TourAction`). -/
inductive TourAction
  | KeyPress (s : String)
  | KeyClick (s : String)
  | KeyRelease (s : String)
  | UiAction (s : String)
deriving DecidableEq

/-- Rust `str::split(sep)` over the character list of a string; the
accumulator holds the characters of the current piece in reverse.
`""` splits to `[""]`, and separators at the ends produce empty pieces,
exactly as in Rust. -/
def splitAcc (sep : Char) : List Char → List Char → List String
  | [], acc => [String.mk acc.reverse]
  | c :: cs, acc =>
    if c = sep then String.mk acc.reverse :: splitAcc sep cs []
    else splitAcc sep cs (c :: acc)

/-- Splitting on `+`, as the source does on every action string and
mapping key string (`.split("+")`). -/
def splitPlus (s : String) : List String := splitAcc '+' s.data []

/-- Mapping entry (src/key_processor.rs, `KeyMappingEntry`). -/
structure KeyMappingEntry where
  trigger_key : String
  action : String
  modifier : List String
  trigger : KeyTriggerTiming
deriving DecidableEq

/-- Processor state (src/key_processor.rs, `KeyMappingProcessor`): the
flat entry table, the trigger-key index (HashMap modelled as a total
function returning the empty candidate list for absent keys), the set of
pressed device keys (HashSet modelled as a duplicate-free list), and the
handles of currently-held `OnHold` entries (field `output_action`). -/
structure KeyMappingProcessor where
  entrys : List KeyMappingEntry
  mappings : String → List Nat
  pressed_key : List String
  output_action : List Nat

/-- Placeholder for out-of-range table reads; the source indexes
`entrys` only with handles it created, which are always in range. -/
def defaultEntry : KeyMappingEntry := ⟨"", "", [], .OnPress⟩

/-- Table lookup `self.entrys[i]`. -/
def getEntry (es : List KeyMappingEntry) (i : Nat) : KeyMappingEntry :=
  es.getD i defaultEntry

/-- HashSet insert on the list model. -/
def insertSet {α : Type} [DecidableEq α] (x : α) (l : List α) : List α :=
  if x ∈ l then l else x :: l

/-- HashSet remove on the list model. -/
def removeSet {α : Type} [DecidableEq α] (x : α) (l : List α) : List α :=
  l.filter (fun y => y != x)

/-- Key named by an input event. -/
def eventKey : InputEvent → String
  | .KeyPressed k => k
  | .KeyReleased k => k

/-- Score delta for the event kind (src/key_processor.rs:31-34). -/
def eventDelta : InputEvent → Int
  | .KeyPressed _ => 1000
  | .KeyReleased _ => -1000

/-- Candidate score (src/key_processor.rs:52-61): modifier count plus
the trigger-timing bonus. -/
def entryScore (delta : Int) (e : KeyMappingEntry) : Int :=
  (e.modifier.length : Int) +
    match e.trigger with
    | .OnPress => delta
    | .OnHold => 1000
    | .OnRelease => -delta

/-- Rust `Iterator::max_by_key`: `none` on an empty iterator; when
several elements are equally maximal the LAST one is returned (the fold
replaces the champion whenever the new key is greater or equal). -/
def maxByLast (f : Nat → Int) (l : List Nat) : Option Nat :=
  l.foldl (fun acc x =>
    match acc with
    | none => some x
    | some a => if f a ≤ f x then some x else some a) none

/-- Structural-recursion equivalent of `maxByLast`, used in proofs. -/
def maxByLastAux (f : Nat → Int) : List Nat → Option Nat
  | [] => none
  | x :: t =>
    match maxByLastAux f t with
    | none => some x
    | some b => if f x ≤ f b then some b else some x

/-- Candidates for the event's key that survive the modifier filter
(src/key_processor.rs:41-51): every modifier must currently be a pressed
device key. -/
def survivors (p : KeyMappingProcessor) (ev : InputEvent) : List Nat :=
  (p.mappings (eventKey ev)).filter
    (fun i => (getEntry p.entrys i).modifier.all (fun m => p.pressed_key.contains m))

/-- Selection of the active entry for an event
(src/key_processor.rs, `get_actived_action`). -/
def get_actived_action (p : KeyMappingProcessor) (ev : InputEvent) : Option Nat :=
  maxByLast (fun i => entryScore (eventDelta ev) (getEntry p.entrys i)) (survivors p ev)

/-- Condition under which a newly activated `OnHold` entry `e` supersedes
a held entry `v` (src/key_processor.rs:90-93): some modifier of `e` is a
modifier of `v` or is `v`'s trigger key. -/
def supersedes (e v : KeyMappingEntry) : Bool :=
  e.modifier.any (fun mv => v.modifier.contains mv || v.trigger_key == mv)

/-- Supersession pass over the held entries on an `OnHold` press
(src/key_processor.rs:85-108): for each held entry superseded by the new
entry, release every host-key token of its action that the new action
does not press again, and drop it from the held list; other held entries
are kept in order. -/
def holdSupersede (es : List KeyMappingEntry) (e : KeyMappingEntry)
    (newKeys : List String) : List Nat → List TourAction × List Nat
  | [] => ([], [])
  | vk :: rest =>
    let v := getEntry es vk
    let r := holdSupersede es e newKeys rest
    if supersedes e v then
      (((splitPlus v.action).filter (fun kb => !newKeys.contains kb)).map
          TourAction.KeyRelease ++ r.1, r.2)
    else (r.1, vk :: r.2)

/-- Release pass over the held entries on a device-key release
(src/key_processor.rs:142-157): every held entry whose trigger key or
modifier list mentions the released key emits a release for each token
of its action and is dropped from the held list. -/
def releaseOnKey (es : List KeyMappingEntry) (k : String) :
    List Nat → List TourAction × List Nat
  | [] => ([], [])
  | vk :: rest =>
    let v := getEntry es vk
    let r := releaseOnKey es k rest
    if v.trigger_key == k || v.modifier.contains k then
      ((splitPlus v.action).map TourAction.KeyRelease ++ r.1, r.2)
    else (r.1, vk :: r.2)

/-- One step of the processor (src/key_processor.rs, `process`): returns
the emitted actions and the updated state. The selection runs on the
incoming state, before the event is applied to `pressed_key`. -/
def process (p : KeyMappingProcessor) (ev : InputEvent) :
    List TourAction × KeyMappingProcessor :=
  match ev with
  | .KeyPressed k =>
    match get_actived_action p (.KeyPressed k) with
    | none => ([], { p with pressed_key := insertSet k p.pressed_key })
    | some i =>
      let e := getEntry p.entrys i
      match e.trigger with
      | .OnPress =>
        ([TourAction.KeyClick e.action],
         { p with pressed_key := insertSet k p.pressed_key })
      | .OnHold =>
        let newKeys := splitPlus e.action
        let r := holdSupersede p.entrys e newKeys p.output_action
        (r.1 ++ newKeys.map TourAction.KeyPress,
         { p with output_action := r.2 ++ [i],
                  pressed_key := insertSet k p.pressed_key })
      | .OnRelease =>
        ([], { p with pressed_key := insertSet k p.pressed_key })
  | .KeyReleased k =>
    let clickActs : List TourAction :=
      match get_actived_action p (.KeyReleased k) with
      | some i =>
        match (getEntry p.entrys i).trigger with
        | .OnRelease => [TourAction.KeyClick (getEntry p.entrys i).action]
        | _ => []
      | none => []
    let r := releaseOnKey p.entrys k p.output_action
    (clickActs ++ r.1,
     { p with output_action := r.2, pressed_key := removeSet k p.pressed_key })

/-- Mapping config record (src/config.rs, `KeyMappingConfig`). -/
structure KeyMappingConfig where
  keys : String
  action : String
  trigger : KeyTriggerTiming

/-- Entry built from one mapping config (src/key_processor.rs:170-194):
the last `+`-separated token of `keys` is the trigger key, the earlier
tokens, in order, are the modifiers. -/
def configEntry (m : KeyMappingConfig) : KeyMappingEntry :=
  let toks := splitPlus m.keys
  { trigger_key := toks.getLastD ""
    action := m.action
    modifier := toks.dropLast
    trigger := m.trigger }

/-- One iteration of the construction loop of `from_config`
(src/key_processor.rs:170-195): append the entry built from the config
to the flat table and push its handle onto the candidate list of its
trigger key. -/
def from_config_step (acc : List KeyMappingEntry × (String → List Nat))
    (m : KeyMappingConfig) : List KeyMappingEntry × (String → List Nat) :=
  let e := configEntry m
  (acc.1 ++ [e],
   fun s => if s = e.trigger_key then acc.2 s ++ [acc.1.length] else acc.2 s)

/-- Construction of the processor from the ordered mapping list
(src/key_processor.rs, `from_config`). -/
def from_config (cfgs : List KeyMappingConfig) : KeyMappingProcessor :=
  let built := cfgs.foldl from_config_step ([], fun _ => [])
  { entrys := built.1
    mappings := built.2
    pressed_key := []
    output_action := [] }

/-- State of the processor after a sequence of input events, starting
from the freshly constructed state. -/
def runEvents (cfgs : List KeyMappingConfig) (evs : List InputEvent) :
    KeyMappingProcessor :=
  evs.foldl (fun p ev => (process p ev).2) (from_config cfgs)

/-- Score bonus table transcribed from the specification's claim, to be
compared with the source-derived `entryScore`. -/
def specBonus : KeyTriggerTiming → InputEvent → Int
  | .OnPress, .KeyPressed _ => 1000
  | .OnPress, .KeyReleased _ => -1000
  | .OnHold, _ => 1000
  | .OnRelease, .KeyPressed _ => -1000
  | .OnRelease, .KeyReleased _ => 1000

/-- Candidate score in the claim's formulation: modifier count plus the
claim's bonus table. -/
def scoreOf (p : KeyMappingProcessor) (ev : InputEvent) (i : Nat) : Int :=
  ((getEntry p.entrys i).modifier.length : Int) +
    specBonus (getEntry p.entrys i).trigger ev

/-! ## Decoder (src/serial.rs:84-109 and src/winusb.rs:156-176) -/

/-- Lowercase hex digit for a value below 16 (`{:02x}` formatting). -/
def hexDigitChar (n : Nat) : Char :=
  if n < 10 then Char.ofNat (48 + n) else Char.ofNat (87 + n)

/-- Rust `format!("0x\x7b:02x\x7d", c)` for a byte value. -/
def hexByte (c : Nat) : String :=
  "0x" ++ String.mk [hexDigitChar (c / 16 % 16), hexDigitChar (c % 16)]

/-- Decoding of one incoming byte against the two configured code tables
(identical logic in src/serial.rs:89-109 and src/winusb.rs:156-176).
`none` models dropping the byte with a warning. The release lookup uses
the 8-bit wrapping subtraction `key_code - 0x80` that the source
performs on a `u8` (in a release-mode build the subtraction wraps; in a
debug build it would panic for bytes below `0x80` that reach it). -/
def decode (stateless stateful : String → Option String) (c : Nat) :
    Option InputEvent :=
  match stateless (hexByte c) with
  | some n => some (.KeyPressed n)
  | none =>
    match stateful (hexByte c) with
    | some n => some (.KeyPressed n)
    | none =>
      match stateful (hexByte ((c + 128) % 256)) with
      | some n => some (.KeyReleased n)
      | none => none

/-! ## Injector (src/key_sender.rs) -/

/-- Host key (the subset of `enigo::Key` that src/key_sender.rs
constructs). -/
inductive Key
  | Alt
  | Control
  | Shift
  | Meta
  | DownArrow
  | LeftArrow
  | RightArrow
  | UpArrow
  | Backspace
  | CapsLock
  | Delete
  | End
  | Return
  | Escape
  | F1 | F2 | F3 | F4 | F5 | F6 | F7 | F8 | F9 | F10 | F11 | F12
  | Home
  | PageDown
  | PageUp
  | Space
  | Tab
  | A | B | C | D | E | F | G | H | I | J | K | L | M
  | N | O | P | Q | R | S | T | U | V | W | X | Y | Z
  | Other (code : Nat)

/-- Injective numeric encoding of `Key`, used to decide equality. -/
def Key.toPair : Key → Nat × Nat
  | .Alt => (0, 0)
  | .Control => (1, 0)
  | .Shift => (2, 0)
  | .Meta => (3, 0)
  | .DownArrow => (4, 0)
  | .LeftArrow => (5, 0)
  | .RightArrow => (6, 0)
  | .UpArrow => (7, 0)
  | .Backspace => (8, 0)
  | .CapsLock => (9, 0)
  | .Delete => (10, 0)
  | .End => (11, 0)
  | .Return => (12, 0)
  | .Escape => (13, 0)
  | .F1 => (14, 0)
  | .F2 => (15, 0)
  | .F3 => (16, 0)
  | .F4 => (17, 0)
  | .F5 => (18, 0)
  | .F6 => (19, 0)
  | .F7 => (20, 0)
  | .F8 => (21, 0)
  | .F9 => (22, 0)
  | .F10 => (23, 0)
  | .F11 => (24, 0)
  | .F12 => (25, 0)
  | .Home => (26, 0)
  | .PageDown => (27, 0)
  | .PageUp => (28, 0)
  | .Space => (29, 0)
  | .Tab => (30, 0)
  | .A => (31, 0)
  | .B => (32, 0)
  | .C => (33, 0)
  | .D => (34, 0)
  | .E => (35, 0)
  | .F => (36, 0)
  | .G => (37, 0)
  | .H => (38, 0)
  | .I => (39, 0)
  | .J => (40, 0)
  | .K => (41, 0)
  | .L => (42, 0)
  | .M => (43, 0)
  | .N => (44, 0)
  | .O => (45, 0)
  | .P => (46, 0)
  | .Q => (47, 0)
  | .R => (48, 0)
  | .S => (49, 0)
  | .T => (50, 0)
  | .U => (51, 0)
  | .V => (52, 0)
  | .W => (53, 0)
  | .X => (54, 0)
  | .Y => (55, 0)
  | .Z => (56, 0)
  | .Other n => (57, n)

/-- Left inverse of `Key.toPair`. -/
def Key.ofPair (p : Nat × Nat) : Key :=
  match p.1 with
  | 0 => .Alt
  | 1 => .Control
  | 2 => .Shift
  | 3 => .Meta
  | 4 => .DownArrow
  | 5 => .LeftArrow
  | 6 => .RightArrow
  | 7 => .UpArrow
  | 8 => .Backspace
  | 9 => .CapsLock
  | 10 => .Delete
  | 11 => .End
  | 12 => .Return
  | 13 => .Escape
  | 14 => .F1
  | 15 => .F2
  | 16 => .F3
  | 17 => .F4
  | 18 => .F5
  | 19 => .F6
  | 20 => .F7
  | 21 => .F8
  | 22 => .F9
  | 23 => .F10
  | 24 => .F11
  | 25 => .F12
  | 26 => .Home
  | 27 => .PageDown
  | 28 => .PageUp
  | 29 => .Space
  | 30 => .Tab
  | 31 => .A
  | 32 => .B
  | 33 => .C
  | 34 => .D
  | 35 => .E
  | 36 => .F
  | 37 => .G
  | 38 => .H
  | 39 => .I
  | 40 => .J
  | 41 => .K
  | 42 => .L
  | 43 => .M
  | 44 => .N
  | 45 => .O
  | 46 => .P
  | 47 => .Q
  | 48 => .R
  | 49 => .S
  | 50 => .T
  | 51 => .U
  | 52 => .V
  | 53 => .W
  | 54 => .X
  | 55 => .Y
  | 56 => .Z
  | _ => .Other p.2

instance : DecidableEq Key := fun a b =>
  if h : a.toPair = b.toPair then
    isTrue (by
      have h2 := congrArg Key.ofPair h
      have ha : Key.ofPair a.toPair = a := by cases a <;> rfl
      have hb : Key.ofPair b.toPair = b := by cases b <;> rfl
      rw [ha, hb] at h2
      exact h2)
  else isFalse (fun hab => h (by rw [hab]))

/-- Injector error (src/key_sender.rs, `KeySenderError`). -/
inductive KeySenderError
  | UnknownKey (s : String)
deriving DecidableEq

instance {ε α : Type} [DecidableEq ε] [DecidableEq α] : DecidableEq (Except ε α)
  | .ok x, .ok y => decidable_of_iff (x = y) (by simp)
  | .ok _, .error _ => isFalse (by simp)
  | .error _, .ok _ => isFalse (by simp)
  | .error e, .error f => decidable_of_iff (e = f) (by simp)

/-- Observable host operation performed through `enigo`. -/
inductive HostOp
  | press (k : Key)
  | release (k : Key)
  | scroll (n : Int)
deriving DecidableEq

/-- Rust `str::to_uppercase` restricted to its ASCII behaviour, which is
all the injector's token vocabulary exercises. -/
def strToUpper (s : String) : String := String.mk (s.data.map Char.toUpper)

/-- Rust `str::starts_with("@")`. -/
def startsWithAt (s : String) : Bool :=
  match s.data with
  | [] => false
  | c :: _ => c == '@'

/-- Rust `str::parse::<u32>` on a digit string: fails on the empty
string and on any non-digit character (a leading `+` cannot occur here
because every token was produced by splitting on `+`). The overflow
bound is checked by the caller. -/
def parseDecimal (cs : List Char) : Option Nat :=
  match cs with
  | [] => none
  | _ =>
    if cs.all (fun c => c.isDigit) then
      some (cs.foldl (fun a c => a * 10 + (c.toNat - 48)) 0)
    else none

/-- Token parser (src/key_sender.rs, `KeySender::parse_key`). The match
runs on the uppercased token; the `@<decimal>` escape is guarded on the
original token and strips every `@` before parsing the digits, exactly
as `k.split("@").collect::<String>().parse()` does. -/
def parse_key (key_str : String) : Except KeySenderError Key :=
  match strToUpper key_str with
  | "ALT" | "ALT_L" | "ALT_R" => .ok .Alt
  | "CONTROL" | "CTRL" | "CTRL_L" | "CTRL_R" => .ok .Control
  | "SHIFT" | "SHIFT_L" | "SHIFT_R" => .ok .Shift
  | "WIN" | "WIN_L" | "WIN_R" | "SUPER" | "COMMAND" => .ok .Meta
  | "DOWN" | "DOWN_ARROW" => .ok .DownArrow
  | "LEFT" | "LEFT_ARROW" => .ok .LeftArrow
  | "RIGHT" | "RIGHT_ARROW" => .ok .RightArrow
  | "UP" | "UP_ARROW" => .ok .UpArrow
  | "BACKSPACE" => .ok .Backspace
  | "CAPSLOCK" => .ok .CapsLock
  | "DELETE" => .ok .Delete
  | "END" => .ok .End
  | "ENTER" => .ok .Return
  | "ESCAPE" => .ok .Escape
  | "F1" => .ok .F1
  | "F2" => .ok .F2
  | "F3" => .ok .F3
  | "F4" => .ok .F4
  | "F5" => .ok .F5
  | "F6" => .ok .F6
  | "F7" => .ok .F7
  | "F8" => .ok .F8
  | "F9" => .ok .F9
  | "F10" => .ok .F10
  | "F11" => .ok .F11
  | "F12" => .ok .F12
  | "HOME" => .ok .Home
  | "PAGEDOWN" => .ok .PageDown
  | "PAGEUP" => .ok .PageUp
  | "SPACE" => .ok .Space
  | "TAB" => .ok .Tab
  | "A" => .ok .A
  | "B" => .ok .B
  | "C" => .ok .C
  | "D" => .ok .D
  | "E" => .ok .E
  | "F" => .ok .F
  | "G" => .ok .G
  | "H" => .ok .H
  | "I" => .ok .I
  | "J" => .ok .J
  | "K" => .ok .K
  | "L" => .ok .L
  | "M" => .ok .M
  | "N" => .ok .N
  | "O" => .ok .O
  | "P" => .ok .P
  | "Q" => .ok .Q
  | "R" => .ok .R
  | "S" => .ok .S
  | "T" => .ok .T
  | "U" => .ok .U
  | "V" => .ok .V
  | "W" => .ok .W
  | "X" => .ok .X
  | "Y" => .ok .Y
  | "Z" => .ok .Z
  | "-" => .ok (.Other 0xBD)
  | "=" => .ok (.Other 0xBB)
  | "[" => .ok (.Other 0xDB)
  | "]" => .ok (.Other 0xDD)
  | "" => .ok (.Other 0xDC)
  | ";" => .ok (.Other 0xBA)
  | "\x27" => .ok (.Other 0xDE)
  | "," => .ok (.Other 0xBC)
  | "." => .ok (.Other 0xBE)
  | "/" => .ok (.Other 0xBF)
  | "\x60" => .ok (.Other 0xC0)
  | k =>
    if startsWithAt key_str then
      match parseDecimal ((splitAcc '@' k.data []).foldl (fun a s => a ++ s.data) []) with
      | some n => if n < 4294967296 then .ok (.Other n) else .error (.UnknownKey k)
      | none => .error (.UnknownKey k)
    else .error (.UnknownKey k)

/-- Loop body of the `KeyClick` branch of src/key_sender.rs:144-154:
walks the tokens, pressing each parsed key that is not already active
and stacking it on `toRel`; at the end the stacked keys are released in
reverse order. A parse failure aborts immediately: the presses already
performed stay in the output and no release is emitted. -/
def clickRun (active : List Key) : List String → List Key →
    List HostOp × Except KeySenderError (List Key)
  | [], toRel => (toRel.reverse.map HostOp.release, .ok active)
  | t :: rest, toRel =>
    match parse_key t with
    | .error e => ([], .error e)
    | .ok k =>
      if active.contains k then clickRun active rest toRel
      else
        let r := clickRun active rest (toRel ++ [k])
        (HostOp.press k :: r.1, r.2)

/-- One action dispatch (src/key_sender.rs, `KeySender::send_key`):
returns the host operations performed, and either the updated
`active_key` set or the error (in which case the caller's `active_key`
is unchanged, since the source returns early with `?`). -/
def sendKey (active : List Key) (action : TourAction) :
    List HostOp × Except KeySenderError (List Key) :=
  match action with
  | .KeyPress s =>
    match parse_key s with
    | .error e => ([], .error e)
    | .ok k => ([HostOp.press k], .ok (insertSet k active))
  | .KeyClick s =>
    if strToUpper s = "WHEEL_UP" then ([HostOp.scroll (-1)], .ok active)
    else if strToUpper s = "WHEEL_DOWN" then ([HostOp.scroll 1], .ok active)
    else clickRun active (splitPlus s) []
  | .KeyRelease s =>
    match parse_key s with
    | .error e => ([], .error e)
    | .ok k => ([HostOp.release k], .ok (removeSet k active))
  | .UiAction _ => ([], .ok active)

/-- Sequential parse of a token list; `some` exactly when every token
parses, as in the claim's hypothesis. -/
def parseAll : List String → Option (List Key)
  | [] => some []
  | t :: rest =>
    match parse_key t with
    | .error _ => none
    | .ok k => (parseAll rest).map (fun ks => k :: ks)

/-! ## Configuration and startup (src/config.rs, src/main.rs) -/

/-- Device selection (src/config.rs, `TourBoxDevice`). -/
inductive TourBoxDevice
  | WinUsb (vid pid : Nat)
  | Serial (serial_port : String) (baud_rate : Nat)

/-- Code tables (src/config.rs, `KeyMap`), HashMaps modelled as lookup
functions. -/
structure KeyMap where
  stateful : String → Option String
  stateless : String → Option String

/-- Loaded configuration (src/config.rs, `Config`). -/
structure Config where
  device : TourBoxDevice
  key_map : KeyMap
  mappings : List KeyMappingConfig

/-- Outcome of program startup. -/
inductive StartupOutcome
  | exited (code : Nat)
  | launched
deriving DecidableEq

/-- Startup behaviour of `main` on the configuration-load result
(src/main.rs:32-44): on `Err` it logs the failure and executes `return;`
from `fn main()`, and a Rust `main` returning `()` terminates the
process with exit status 0; on `Ok` the program goes on to spawn the
device and processor threads and run the UI. -/
def mainStartup (loadResult : Except String Config) : StartupOutcome :=
  match loadResult with
  | .error _ => .exited 0
  | .ok _ => .launched

/-- Truth of "the process terminates with a nonzero exit status" for a
startup outcome, transcribed from the claim. -/
def exitsNonzero : StartupOutcome → Bool
  | .exited code => code != 0
  | .launched => false

/-! ## Invariant statements -/

/-- Well-formedness of the processor's index, established by
`from_config` and untouched afterwards: every candidate handle is in
range and points at an entry whose trigger key is its index key. -/
def WFIndex (p : KeyMappingProcessor) : Prop :=
  ∀ k i, i ∈ p.mappings k →
    i < p.entrys.length ∧ (getEntry p.entrys i).trigger_key = k

/-- Invariant of claim C5: every currently-held entry has its trigger
key and all its modifiers among the pressed device keys. -/
def HeldInv (p : KeyMappingProcessor) : Prop :=
  ∀ i ∈ p.output_action,
    (getEntry p.entrys i).trigger_key ∈ p.pressed_key ∧
    ∀ m ∈ (getEntry p.entrys i).modifier, m ∈ p.pressed_key

/-! ## Concrete states used by witnesses and counterexamples -/

/-- Two entries tied on the same trigger key, modifiers and timing:
exercises the tie-breaking of the selection. -/
def pTie : KeyMappingProcessor :=
  from_config [⟨"k", "X", .OnPress⟩, ⟨"k", "Y", .OnPress⟩]

/-- Single-entry processor used to instantiate the selection theorem. -/
def pOne : KeyMappingProcessor := from_config [⟨"k", "X", .OnPress⟩]

/-- Scenario S4 state: two `OnHold` mappings sharing the `tall`
modifier, after `Pressed("tall"), Pressed("top")`. -/
def pS4 : KeyMappingProcessor :=
  runEvents [⟨"tall+top", "CTRL+C", .OnHold⟩, ⟨"tall+side", "CTRL+V", .OnHold⟩]
    [.KeyPressed "tall", .KeyPressed "top"]

/-- Empty stateless table (no momentary controls configured). -/
def statelessEmpty : String → Option String := fun _ => none

/-- Stateful table of decoder scenario S6: code `0x01` is `tall`. -/
def statefulTall : String → Option String :=
  fun s => if s = "0x01" then some "tall" else none

/-- Stateful table with only the high-bit code `0x81` mapped: exercises
the unguarded wrap of the release lookup. -/
def statefulHigh : String → Option String :=
  fun s => if s = "0x81" then some "x" else none

/-! ## Helper lemmas on the set model -/

theorem mem_insertSet {α : Type} [DecidableEq α] {x a : α} {l : List α} :
    a ∈ insertSet x l ↔ a = x ∨ a ∈ l := by
  unfold insertSet
  split
  case isTrue h =>
    constructor
    · exact fun hm => Or.inr hm
    · rintro (rfl | hm)
      · exact h
      · exact hm
  case isFalse h => simp [List.mem_cons]

theorem mem_removeSet {α : Type} [DecidableEq α] {x a : α} {l : List α} :
    a ∈ removeSet x l ↔ a ∈ l ∧ a ≠ x := by
  unfold removeSet
  simp [List.mem_filter]

theorem contains_iff {α : Type} [DecidableEq α] {l : List α} {a : α} :
    l.contains a = true ↔ a ∈ l := by
  simp [List.contains]

/-! ## Theory of `maxByLast` (Rust `max_by_key`) -/

theorem maxByLastAux_eq_none {f : Nat → Int} {l : List Nat} :
    maxByLastAux f l = none ↔ l = [] := by
  cases l with
  | nil => simp [maxByLastAux]
  | cons x t =>
    cases h : maxByLastAux f t with
    | none => simp [maxByLastAux, h]
    | some b => by_cases h1 : f x ≤ f b <;> simp [maxByLastAux, h, h1]

theorem maxByLastAux_merge (f : Nat → Int) (a x : Nat) (t : List Nat) :
    maxByLastAux f (a :: x :: t) =
      maxByLastAux f ((if f a ≤ f x then x else a) :: t) := by
  cases h : maxByLastAux f t with
  | none => by_cases hax : f a ≤ f x <;> simp [maxByLastAux, h, hax]
  | some v =>
    by_cases h1 : f x ≤ f v <;> by_cases hax : f a ≤ f x
    · simp [maxByLastAux, h, if_pos h1, if_pos hax, if_pos (le_trans hax h1)]
    · simp [maxByLastAux, h, if_pos h1, if_neg hax]
    · simp [maxByLastAux, h, if_neg h1, if_pos hax]
    · simp [maxByLastAux, h, if_neg h1, if_neg hax,
        if_neg (show ¬(f a ≤ f v) by omega)]

theorem foldl_max_step (f : Nat → Int) :
    ∀ (l : List Nat) (a : Nat),
      l.foldl (fun acc x =>
        match acc with
        | none => some x
        | some b => if f b ≤ f x then some x else some b) (some a) =
      maxByLastAux f (a :: l) := by
  intro l
  induction l with
  | nil => intro a; simp [maxByLastAux]
  | cons x t ih =>
    intro a
    rw [List.foldl_cons, maxByLastAux_merge]
    by_cases hax : f a ≤ f x
    · simp only [if_pos hax]
      exact ih x
    · simp only [if_neg hax]
      exact ih a

theorem maxByLast_eq_aux (f : Nat → Int) (l : List Nat) :
    maxByLast f l = maxByLastAux f l := by
  cases l with
  | nil => rfl
  | cons a t =>
    simp only [maxByLast, List.foldl_cons]
    exact foldl_max_step f t a

theorem maxByLastAux_spec {f : Nat → Int} :
    ∀ (l : List Nat) (x : Nat), maxByLastAux f l = some x →
      ∃ l1 l2, l = l1 ++ x :: l2 ∧
        (∀ y ∈ l1, f y ≤ f x) ∧ (∀ y ∈ l2, f y < f x) := by
  intro l
  induction l with
  | nil => intro x h; simp [maxByLastAux] at h
  | cons a t ih =>
    intro x h
    simp only [maxByLastAux] at h
    cases ht : maxByLastAux f t with
    | none =>
      rw [ht] at h
      have hnil : t = [] := maxByLastAux_eq_none.mp ht
      subst hnil
      cases h
      exact ⟨[], [], rfl, by simp, by simp⟩
    | some b =>
      rw [ht] at h
      replace h : (if f a ≤ f b then some b else some a) = some x := h
      by_cases hab : f a ≤ f b
      · rw [if_pos hab] at h
        cases h
        obtain ⟨l1, l2, heq, h1, h2⟩ := ih x ht
        refine ⟨a :: l1, l2, by rw [heq]; rfl, ?_, h2⟩
        intro y hy
        rcases List.mem_cons.mp hy with rfl | hy
        · exact hab
        · exact h1 y hy
      · rw [if_neg hab] at h
        cases h
        obtain ⟨l1, l2, heq, h1, h2⟩ := ih b ht
        refine ⟨[], t, rfl, by simp, ?_⟩
        intro y hy
        rw [heq] at hy
        rcases List.mem_append.mp hy with hy1 | hy2
        · have := h1 y hy1
          omega
        · rcases List.mem_cons.mp hy2 with rfl | hy3
          · omega
          · have := h2 y hy3
            omega

theorem maxByLast_spec {f : Nat → Int} {l : List Nat} {x : Nat}
    (h : maxByLast f l = some x) :
    ∃ l1 l2, l = l1 ++ x :: l2 ∧
      (∀ y ∈ l1, f y ≤ f x) ∧ (∀ y ∈ l2, f y < f x) := by
  rw [maxByLast_eq_aux] at h
  exact maxByLastAux_spec l x h

theorem maxByLast_mem {f : Nat → Int} {l : List Nat} {x : Nat}
    (h : maxByLast f l = some x) : x ∈ l := by
  obtain ⟨l1, l2, heq, -, -⟩ := maxByLast_spec h
  rw [heq]
  exact List.mem_append.mpr (Or.inr (List.mem_cons_self x l2))

theorem maxByLast_le {f : Nat → Int} {l : List Nat} {x : Nat}
    (h : maxByLast f l = some x) : ∀ y ∈ l, f y ≤ f x := by
  obtain ⟨l1, l2, heq, h1, h2⟩ := maxByLast_spec h
  intro y hy
  rw [heq] at hy
  rcases List.mem_append.mp hy with hy1 | hy2
  · exact h1 y hy1
  · rcases List.mem_cons.mp hy2 with rfl | hy3
    · exact le_refl _
    · exact le_of_lt (h2 y hy3)

theorem maxByLast_eq_none {f : Nat → Int} {l : List Nat} :
    maxByLast f l = none ↔ l = [] := by
  rw [maxByLast_eq_aux]
  exact maxByLastAux_eq_none

/-! ## Selection lemmas -/

theorem selection_mem {p : KeyMappingProcessor} {ev : InputEvent} {i : Nat}
    (h : get_actived_action p ev = some i) : i ∈ survivors p ev :=
  maxByLast_mem h

theorem survivors_mem_mappings {p : KeyMappingProcessor} {ev : InputEvent} {i : Nat}
    (h : i ∈ survivors p ev) : i ∈ p.mappings (eventKey ev) :=
  List.mem_of_mem_filter h

theorem survivors_modifier {p : KeyMappingProcessor} {ev : InputEvent} {i : Nat}
    (h : i ∈ survivors p ev) :
    ∀ m ∈ (getEntry p.entrys i).modifier, m ∈ p.pressed_key := by
  have hf := (List.mem_filter.mp h).2
  intro m hm
  have := (List.all_eq_true.mp hf) m hm
  exact contains_iff.mp this

theorem mem_survivors_iff {p : KeyMappingProcessor} {ev : InputEvent} {i : Nat} :
    i ∈ survivors p ev ↔
      i ∈ p.mappings (eventKey ev) ∧
      ∀ m ∈ (getEntry p.entrys i).modifier, m ∈ p.pressed_key := by
  unfold survivors
  rw [List.mem_filter]
  constructor
  · rintro ⟨h1, h2⟩
    refine ⟨h1, fun m hm => contains_iff.mp ((List.all_eq_true.mp h2) m hm)⟩
  · rintro ⟨h1, h2⟩
    refine ⟨h1, List.all_eq_true.mpr fun m hm => contains_iff.mpr (h2 m hm)⟩

theorem entryScore_eq_spec (ev : InputEvent) (e : KeyMappingEntry) :
    entryScore (eventDelta ev) e = (e.modifier.length : Int) + specBonus e.trigger ev := by
  cases ev <;> cases h : e.trigger <;> simp [entryScore, eventDelta, specBonus, h]

theorem scoreOf_eq (p : KeyMappingProcessor) (ev : InputEvent) (i : Nat) :
    scoreOf p ev i = entryScore (eventDelta ev) (getEntry p.entrys i) := by
  rw [scoreOf, entryScore_eq_spec]

/-! ## Characterizations of the two passes over the held entries -/

theorem holdSupersede_eq (es : List KeyMappingEntry) (e : KeyMappingEntry)
    (nk : List String) (l : List Nat) :
    holdSupersede es e nk l =
      ((l.filter (fun vk => supersedes e (getEntry es vk))).flatMap
          (fun vk => ((splitPlus (getEntry es vk).action).filter
              (fun kb => !nk.contains kb)).map TourAction.KeyRelease),
       l.filter (fun vk => !supersedes e (getEntry es vk))) := by
  induction l with
  | nil => rfl
  | cons vk rest ih =>
    simp only [holdSupersede, ih]
    rw [List.filter_cons, List.filter_cons]
    cases h : supersedes e (getEntry es vk) <;> simp [List.flatMap_cons]

theorem releaseOnKey_eq (es : List KeyMappingEntry) (k : String) (l : List Nat) :
    releaseOnKey es k l =
      ((l.filter (fun vk =>
            (getEntry es vk).trigger_key == k || (getEntry es vk).modifier.contains k)).flatMap
          (fun vk => (splitPlus (getEntry es vk).action).map TourAction.KeyRelease),
       l.filter (fun vk =>
            !((getEntry es vk).trigger_key == k || (getEntry es vk).modifier.contains k))) := by
  induction l with
  | nil => rfl
  | cons vk rest ih =>
    simp only [releaseOnKey, ih]
    rw [List.filter_cons, List.filter_cons]
    cases h : ((getEntry es vk).trigger_key == k || (getEntry es vk).modifier.contains k) <;>
      simp [List.flatMap_cons]

/-! ## Processor-step structure lemmas -/

theorem process_entrys (p : KeyMappingProcessor) (ev : InputEvent) :
    (process p ev).2.entrys = p.entrys := by
  cases ev with
  | KeyPressed k =>
    cases hsel : get_actived_action p (.KeyPressed k) with
    | none => simp [process, hsel]
    | some i =>
      cases htr : (getEntry p.entrys i).trigger <;> simp [process, hsel, htr]
  | KeyReleased k => rfl

theorem process_mappings (p : KeyMappingProcessor) (ev : InputEvent) :
    (process p ev).2.mappings = p.mappings := by
  cases ev with
  | KeyPressed k =>
    cases hsel : get_actived_action p (.KeyPressed k) with
    | none => simp [process, hsel]
    | some i =>
      cases htr : (getEntry p.entrys i).trigger <;> simp [process, hsel, htr]
  | KeyReleased k => rfl

/-! ## Claim C1 -/

/-- C1: for every input event with key `k`, the processor selects the
active entry by filtering the candidates of `mapping_index[k]` down to
those whose every modifier is currently pressed (the event key itself is
applied to `pressed_keys` only after selection, which `process`
realizes by calling `get_actived_action` on the incoming state) and
picking a survivor of maximal score, where the score is the modifier
count plus the claimed bonus table (`specBonus`); if no candidate
survives, no entry is selected. -/
theorem c1_selection (p : KeyMappingProcessor) (ev : InputEvent) :
    (∀ i, get_actived_action p ev = some i →
        i ∈ survivors p ev ∧
        ∀ j ∈ survivors p ev, scoreOf p ev j ≤ scoreOf p ev i) ∧
    (survivors p ev = [] → get_actived_action p ev = none) ∧
    (survivors p ev ≠ [] → ∃ i, get_actived_action p ev = some i) ∧
    (∀ i, i ∈ survivors p ev ↔
        i ∈ p.mappings (eventKey ev) ∧
        ∀ m ∈ (getEntry p.entrys i).modifier, m ∈ p.pressed_key) := by
  refine ⟨?_, ?_, ?_, fun i => mem_survivors_iff⟩
  · intro i h
    refine ⟨selection_mem h, ?_⟩
    intro j hj
    rw [scoreOf_eq, scoreOf_eq]
    exact maxByLast_le h j hj
  · intro hnil
    rw [get_actived_action, hnil]
    rfl
  · intro hne
    cases hs : get_actived_action p ev with
    | none =>
      rw [get_actived_action, maxByLast_eq_none] at hs
      exact absurd hs hne
    | some i => exact ⟨i, rfl⟩

/-- Witness for C1 at a concrete one-entry processor: the selected
handle 0 is indeed a survivor. -/
theorem c1_witness : 0 ∈ survivors pOne (.KeyPressed "k") :=
  ((c1_selection pOne (.KeyPressed "k")).1 0 (by decide)).1

/-! ## Claim C2 -/

/-- C2 counterexample: two entries on the same trigger key with equal
(maximal) scores; the claim says the FIRST candidate (handle 0) is
selected, but the processor selects the LAST (handle 1), because Rust's
`max_by_key` returns the last of several equally-maximal elements. -/
theorem c2_counterexample :
    survivors pTie (.KeyPressed "k") = [0, 1] ∧
    scoreOf pTie (.KeyPressed "k") 0 = scoreOf pTie (.KeyPressed "k") 1 ∧
    get_actived_action pTie (.KeyPressed "k") = some 1 :=
  ⟨by decide, by decide, by decide⟩

/-- C2 amended: when several surviving candidates attain the same
maximal score, the processor selects the one that occurs LAST in the
candidate list `mapping_index[k]`: the selected handle is a survivor of
maximal score, and it has an occurrence in the survivor list that every
later survivor scores strictly below. -/
theorem c2_last_of_ties (p : KeyMappingProcessor) (ev : InputEvent) (x : Nat)
    (h : get_actived_action p ev = some x) :
    x ∈ survivors p ev ∧
    (∀ j ∈ survivors p ev, scoreOf p ev j ≤ scoreOf p ev x) ∧
    ∃ l1 l2, survivors p ev = l1 ++ x :: l2 ∧
      ∀ y ∈ l2, scoreOf p ev y < scoreOf p ev x := by
  refine ⟨selection_mem h, ?_, ?_⟩
  · intro j hj
    rw [scoreOf_eq, scoreOf_eq]
    exact maxByLast_le h j hj
  · obtain ⟨l1, l2, heq, -, h2⟩ := maxByLast_spec h
    refine ⟨l1, l2, heq, ?_⟩
    intro y hy
    rw [scoreOf_eq, scoreOf_eq]
    exact h2 y hy

/-- Witness for C2's amended theorem at the concrete tied processor. -/
theorem c2_witness : (1 : Nat) ∈ survivors pTie (.KeyPressed "k") :=
  (c2_last_of_ties pTie (.KeyPressed "k") 1 (by decide)).1

/-! ## Claim C3 -/

/-- C3: on a Press event whose selected entry `E` (handle `i`) has
trigger `OnHold`, the emitted actions are exactly: for each held entry
`h` that shares a modifier with `E` or whose trigger key is one of
`E`'s modifiers, in held order, a `Release(t)` for precisely those
tokens `t` of `h.action` that do not occur in `split(E.action, '+')`;
followed by a `Press(t)` for every token of `E.action` in order. The
new held set is the non-superseded held entries followed by `E`, and no
token of `E.action` is ever released during the transition. -/
theorem c3_supersession (p : KeyMappingProcessor) (k : String) (i : Nat)
    (hsel : get_actived_action p (.KeyPressed k) = some i)
    (htrig : (getEntry p.entrys i).trigger = .OnHold) :
    (process p (.KeyPressed k)).1 =
      ((p.output_action.filter
          (fun vk => supersedes (getEntry p.entrys i) (getEntry p.entrys vk))).flatMap
        (fun vk => ((splitPlus (getEntry p.entrys vk).action).filter
            (fun t => !(splitPlus (getEntry p.entrys i).action).contains t)).map
          TourAction.KeyRelease)) ++
      (splitPlus (getEntry p.entrys i).action).map TourAction.KeyPress ∧
    (process p (.KeyPressed k)).2.output_action =
      (p.output_action.filter
        (fun vk => !supersedes (getEntry p.entrys i) (getEntry p.entrys vk))) ++ [i] ∧
    ∀ t, t ∈ splitPlus (getEntry p.entrys i).action →
      TourAction.KeyRelease t ∉ (process p (.KeyPressed k)).1 := by
  have hred :
      process p (.KeyPressed k) =
        ((holdSupersede p.entrys (getEntry p.entrys i)
            (splitPlus (getEntry p.entrys i).action) p.output_action).1 ++
          (splitPlus (getEntry p.entrys i).action).map TourAction.KeyPress,
         { p with
            output_action :=
              (holdSupersede p.entrys (getEntry p.entrys i)
                (splitPlus (getEntry p.entrys i).action) p.output_action).2 ++ [i],
            pressed_key := insertSet k p.pressed_key }) := by
    simp [process, hsel, htrig]
  rw [hred, holdSupersede_eq]
  refine ⟨rfl, rfl, ?_⟩
  intro t ht hmem
  rcases List.mem_append.mp hmem with hrel | hpress
  · obtain ⟨vk, -, hin⟩ := List.mem_flatMap.mp hrel
    obtain ⟨kb, hkb, hEq⟩ := List.mem_map.mp hin
    cases hEq
    have hnot := (List.mem_filter.mp hkb).2
    rw [Bool.not_eq_eq_eq_not, Bool.not_true] at hnot
    have hyes : (splitPlus (getEntry p.entrys i).action).contains t = true :=
      contains_iff.mpr ht
    rw [hyes] at hnot
    exact Bool.noConfusion hnot
  · obtain ⟨kb, -, hEq⟩ := List.mem_map.mp hpress
    exact TourAction.noConfusion hEq

/-- Witness for C3 in scenario S4: pressing `side` on top of the held
`tall+top → CTRL+C` never releases the shared token `CTRL`. -/
theorem c3_witness :
    TourAction.KeyRelease "CTRL" ∉ (process pS4 (.KeyPressed "side")).1 :=
  (c3_supersession pS4 "side" 1 (by decide) (by decide)).2.2 "CTRL" (by decide)

/-! ## Claim C4 -/

/-- C4: for a device key `k` mapped by a single `OnHold` entry whose
action splits into the two tokens `A` and `B`, processing
`Pressed(k), Released(k)` from the empty state emits exactly
`Press(A), Press(B)` then `Release(A), Release(B)`, and leaves both
`pressed_keys` and `held_entries` empty. -/
theorem c4_roundtrip (k A B s : String)
    (hk : splitPlus k = [k]) (hs : splitPlus s = [A, B]) :
    (process (from_config [⟨k, s, .OnHold⟩]) (.KeyPressed k)).1 =
      [TourAction.KeyPress A, TourAction.KeyPress B] ∧
    (process (process (from_config [⟨k, s, .OnHold⟩]) (.KeyPressed k)).2
        (.KeyReleased k)).1 =
      [TourAction.KeyRelease A, TourAction.KeyRelease B] ∧
    (process (process (from_config [⟨k, s, .OnHold⟩]) (.KeyPressed k)).2
        (.KeyReleased k)).2.pressed_key = [] ∧
    (process (process (from_config [⟨k, s, .OnHold⟩]) (.KeyPressed k)).2
        (.KeyReleased k)).2.output_action = [] := by
  have he : configEntry ⟨k, s, .OnHold⟩ = ⟨k, s, [], .OnHold⟩ := by
    simp [configEntry, hk]
  have hp : from_config [⟨k, s, .OnHold⟩] =
      { entrys := [(⟨k, s, [], .OnHold⟩ : KeyMappingEntry)]
        mappings := fun t => if t = k then [0] else []
        pressed_key := []
        output_action := [] } := by
    simp [from_config, from_config_step, he]
  rw [hp]
  have hsel1 : get_actived_action
      { entrys := [(⟨k, s, [], .OnHold⟩ : KeyMappingEntry)]
        mappings := fun t => if t = k then [0] else []
        pressed_key := []
        output_action := [] } (.KeyPressed k) = some 0 := by
    simp [get_actived_action, survivors, getEntry, maxByLast, eventKey]
  have h1 : process
      { entrys := [(⟨k, s, [], .OnHold⟩ : KeyMappingEntry)]
        mappings := fun t => if t = k then [0] else []
        pressed_key := []
        output_action := [] } (.KeyPressed k) =
      ([TourAction.KeyPress A, TourAction.KeyPress B],
       { entrys := [(⟨k, s, [], .OnHold⟩ : KeyMappingEntry)]
         mappings := fun t => if t = k then [0] else []
         pressed_key := [k]
         output_action := [0] }) := by
    simp [process, hsel1, getEntry, holdSupersede, insertSet, hs]
  rw [h1]
  have hsel2 : get_actived_action
      { entrys := [(⟨k, s, [], .OnHold⟩ : KeyMappingEntry)]
        mappings := fun t => if t = k then [0] else []
        pressed_key := [k]
        output_action := [0] } (.KeyReleased k) = some 0 := by
    simp [get_actived_action, survivors, getEntry, maxByLast, eventKey]
  have h2 : process
      { entrys := [(⟨k, s, [], .OnHold⟩ : KeyMappingEntry)]
        mappings := fun t => if t = k then [0] else []
        pressed_key := [k]
        output_action := [0] } (.KeyReleased k) =
      ([TourAction.KeyRelease A, TourAction.KeyRelease B],
       { entrys := [(⟨k, s, [], .OnHold⟩ : KeyMappingEntry)]
         mappings := fun t => if t = k then [0] else []
         pressed_key := []
         output_action := [] }) := by
    simp [process, hsel2, getEntry, releaseOnKey, removeSet, hs]
  rw [h2]
  exact ⟨rfl, rfl, rfl, rfl⟩

/-- Witness for C4 at the concrete mapping `k → A+B`. -/
theorem c4_witness :
    (process (from_config [⟨"k", "A+B", .OnHold⟩]) (.KeyPressed "k")).1 =
      [TourAction.KeyPress "A", TourAction.KeyPress "B"] :=
  (c4_roundtrip "k" "A" "B" "A+B" (by decide) (by decide)).1

/-! ## Claim C5 -/

theorem getEntry_append {es : List KeyMappingEntry} {i : Nat}
    (e : KeyMappingEntry) (h : i < es.length) :
    getEntry (es ++ [e]) i = getEntry es i := by
  simp [getEntry, List.getD, List.getElem?_append_left h]

theorem getEntry_append_len (es : List KeyMappingEntry) (e : KeyMappingEntry) :
    getEntry (es ++ [e]) es.length = e := by
  simp [getEntry, List.getD, List.getElem?_append_right (Nat.le_refl _)]

theorem from_config_step_inv (es : List KeyMappingEntry) (m : String → List Nat)
    (cfg : KeyMappingConfig)
    (h : ∀ k i, i ∈ m k → i < es.length ∧ (getEntry es i).trigger_key = k) :
    ∀ k i, i ∈ (from_config_step (es, m) cfg).2 k →
      i < (from_config_step (es, m) cfg).1.length ∧
      (getEntry (from_config_step (es, m) cfg).1 i).trigger_key = k := by
  intro k i hi
  simp only [from_config_step] at hi ⊢
  by_cases hk : k = (configEntry cfg).trigger_key
  · rw [if_pos hk] at hi
    rcases List.mem_append.mp hi with hold | hnew
    · obtain ⟨h1, h2⟩ := h k i hold
      refine ⟨?_, ?_⟩
      · simp only [List.length_append, List.length_cons, List.length_nil]
        omega
      · rw [getEntry_append _ h1]
        exact h2
    · have hieq : i = es.length := by simpa using hnew
      subst hieq
      refine ⟨?_, ?_⟩
      · simp only [List.length_append, List.length_cons, List.length_nil]
        omega
      · rw [getEntry_append_len]
        exact hk.symm
  · rw [if_neg hk] at hi
    obtain ⟨h1, h2⟩ := h k i hi
    refine ⟨?_, ?_⟩
    · simp only [List.length_append, List.length_cons, List.length_nil]
      omega
    · rw [getEntry_append _ h1]
      exact h2

theorem from_config_fold_inv :
    ∀ (cfgs : List KeyMappingConfig) (es : List KeyMappingEntry)
      (m : String → List Nat),
      (∀ k i, i ∈ m k → i < es.length ∧ (getEntry es i).trigger_key = k) →
      ∀ k i, i ∈ (cfgs.foldl from_config_step (es, m)).2 k →
        i < (cfgs.foldl from_config_step (es, m)).1.length ∧
        (getEntry (cfgs.foldl from_config_step (es, m)).1 i).trigger_key = k := by
  intro cfgs
  induction cfgs with
  | nil => intro es m h; simpa using h
  | cons cfg rest ih =>
    intro es m h
    rw [List.foldl_cons]
    exact ih (from_config_step (es, m) cfg).1 (from_config_step (es, m) cfg).2
      (from_config_step_inv es m cfg h)

theorem from_config_wf (cfgs : List KeyMappingConfig) :
    WFIndex (from_config cfgs) := by
  intro k i hi
  simp only [from_config] at hi ⊢
  exact from_config_fold_inv cfgs [] (fun _ => []) (by simp) k i hi

theorem wf_step {p : KeyMappingProcessor} (ev : InputEvent) (h : WFIndex p) :
    WFIndex (process p ev).2 := by
  intro k i hi
  rw [process_mappings] at hi
  rw [process_entrys]
  exact h k i hi

theorem releaseOnKey_kept {es : List KeyMappingEntry} {k : String}
    {l : List Nat} {i : Nat} (hi : i ∈ (releaseOnKey es k l).2) :
    i ∈ l ∧ (getEntry es i).trigger_key ≠ k ∧ k ∉ (getEntry es i).modifier := by
  rw [releaseOnKey_eq] at hi
  refine ⟨List.mem_of_mem_filter hi, ?_, ?_⟩
  all_goals
    have hcond := (List.mem_filter.mp hi).2
  all_goals
    rw [Bool.not_eq_eq_eq_not, Bool.not_true, Bool.or_eq_false_iff] at hcond
  · intro hEq
    rw [hEq] at hcond
    simpa using hcond.1
  · intro hk
    have := contains_iff.mpr hk
    rw [this] at hcond
    exact Bool.noConfusion hcond.2

theorem heldInv_step {p : KeyMappingProcessor} (ev : InputEvent)
    (hwf : WFIndex p) (hinv : HeldInv p) : HeldInv (process p ev).2 := by
  cases ev with
  | KeyPressed k =>
    cases hsel : get_actived_action p (.KeyPressed k) with
    | none =>
      intro i hi
      simp only [process, hsel] at hi ⊢
      obtain ⟨h1, h2⟩ := hinv i hi
      exact ⟨mem_insertSet.mpr (Or.inr h1),
        fun m hm => mem_insertSet.mpr (Or.inr (h2 m hm))⟩
    | some j =>
      cases htr : (getEntry p.entrys j).trigger with
      | OnPress =>
        intro i hi
        simp only [process, hsel, htr] at hi ⊢
        obtain ⟨h1, h2⟩ := hinv i hi
        exact ⟨mem_insertSet.mpr (Or.inr h1),
          fun m hm => mem_insertSet.mpr (Or.inr (h2 m hm))⟩
      | OnRelease =>
        intro i hi
        simp only [process, hsel, htr] at hi ⊢
        obtain ⟨h1, h2⟩ := hinv i hi
        exact ⟨mem_insertSet.mpr (Or.inr h1),
          fun m hm => mem_insertSet.mpr (Or.inr (h2 m hm))⟩
      | OnHold =>
        intro i hi
        simp only [process, hsel, htr] at hi ⊢
        rw [holdSupersede_eq] at hi
        rcases List.mem_append.mp hi with hkept | hj
        · have hmem : i ∈ p.output_action := List.mem_of_mem_filter hkept
          obtain ⟨h1, h2⟩ := hinv i hmem
          exact ⟨mem_insertSet.mpr (Or.inr h1),
            fun m hm => mem_insertSet.mpr (Or.inr (h2 m hm))⟩
        · have hij : i = j := by simpa using hj
          subst hij
          have hjs := selection_mem hsel
          have hjk : (getEntry p.entrys i).trigger_key = k :=
            (hwf k i (survivors_mem_mappings hjs)).2
          refine ⟨?_, ?_⟩
          · rw [hjk]
            exact mem_insertSet.mpr (Or.inl rfl)
          · intro m hm
            exact mem_insertSet.mpr (Or.inr (survivors_modifier hjs m hm))
  | KeyReleased k =>
    intro i hi
    simp only [process] at hi ⊢
    obtain ⟨hmem, htk, hmod⟩ := releaseOnKey_kept hi
    obtain ⟨h1, h2⟩ := hinv i hmem
    refine ⟨mem_removeSet.mpr ⟨h1, htk⟩, ?_⟩
    intro m hm
    refine mem_removeSet.mpr ⟨h2 m hm, ?_⟩
    intro hmk
    exact hmod (hmk ▸ hm)

theorem runEvents_heldInv (cfgs : List KeyMappingConfig) (evs : List InputEvent) :
    WFIndex (runEvents cfgs evs) ∧ HeldInv (runEvents cfgs evs) := by
  suffices h : ∀ (l : List InputEvent) (p : KeyMappingProcessor),
      WFIndex p → HeldInv p →
      WFIndex (l.foldl (fun p ev => (process p ev).2) p) ∧
      HeldInv (l.foldl (fun p ev => (process p ev).2) p) by
    refine h evs (from_config cfgs) (from_config_wf cfgs) ?_
    intro i hi
    simp [from_config] at hi
  intro l
  induction l with
  | nil => intro p h1 h2; exact ⟨h1, h2⟩
  | cons ev rest ih =>
    intro p h1 h2
    rw [List.foldl_cons]
    exact ih _ (wf_step ev h1) (heldInv_step ev h1 h2)

/-- C5: starting from the empty state, after any sequence of input
events every held entry has its trigger key and all its modifiers in
`pressed_keys`; and, for any state, each `Release(k)` removes from the
held set every entry whose trigger key is `k` or that lists `k` among
its modifiers. -/
theorem c5_invariant (cfgs : List KeyMappingConfig) (evs : List InputEvent) :
    (∀ i ∈ (runEvents cfgs evs).output_action,
        (getEntry (runEvents cfgs evs).entrys i).trigger_key ∈
          (runEvents cfgs evs).pressed_key ∧
        ∀ m ∈ (getEntry (runEvents cfgs evs).entrys i).modifier,
          m ∈ (runEvents cfgs evs).pressed_key) ∧
    (∀ (p : KeyMappingProcessor) (k : String) (i : Nat),
        i ∈ (process p (.KeyReleased k)).2.output_action →
        (getEntry p.entrys i).trigger_key ≠ k ∧
        k ∉ (getEntry p.entrys i).modifier) := by
  constructor
  · exact (runEvents_heldInv cfgs evs).2
  · intro p k i hi
    simp only [process] at hi
    obtain ⟨-, htk, hmod⟩ := releaseOnKey_kept hi
    exact ⟨htk, hmod⟩

/-- Witness for C5 after pressing `tall` with the `OnHold` mapping
`tall → CTRL+C` held: the held entry's trigger key is pressed. -/
theorem c5_witness :
    (getEntry (runEvents [⟨"tall", "CTRL+C", .OnHold⟩]
        [.KeyPressed "tall"]).entrys 0).trigger_key ∈
      (runEvents [⟨"tall", "CTRL+C", .OnHold⟩] [.KeyPressed "tall"]).pressed_key :=
  ((c5_invariant [⟨"tall", "CTRL+C", .OnHold⟩] [.KeyPressed "tall"]).1
    0 (by decide)).1

/-! ## Claim C6 -/

/-- C6: the decoder resolves each byte in order — stateless table hit
gives `Pressed`, then stateful table hit gives `Pressed`, then a
stateful hit at the code with the high bit cleared gives `Released`,
else the byte is dropped. In particular, for `c ∈ [0x80, 0xFF]` with
`stateful[hex(c − 0x80)]` defined and both direct lookups undefined,
the event is `Released(stateful[hex(c − 0x80)])`. -/
theorem c6_decoder (stl stf : String → Option String) (c : Nat) :
    (∀ n, stl (hexByte c) = some n →
        decode stl stf c = some (.KeyPressed n)) ∧
    (∀ n, stl (hexByte c) = none → stf (hexByte c) = some n →
        decode stl stf c = some (.KeyPressed n)) ∧
    (∀ n, 0x80 ≤ c → c ≤ 0xFF →
        stl (hexByte c) = none → stf (hexByte c) = none →
        stf (hexByte (c - 0x80)) = some n →
        decode stl stf c = some (.KeyReleased n)) ∧
    (stl (hexByte c) = none → stf (hexByte c) = none →
        stf (hexByte ((c + 128) % 256)) = none →
        decode stl stf c = none) := by
  refine ⟨?_, ?_, ?_, ?_⟩
  · intro n h
    simp [decode, h]
  · intro n h1 h2
    simp [decode, h1, h2]
  · intro n hlo hhi h1 h2 h3
    have hw : (c + 128) % 256 = c - 0x80 := by omega
    simp [decode, h1, h2, hw, h3]
  · intro h1 h2 h3
    simp [decode, h1, h2, h3]

/-- Witness for C6 at scenario S6: byte `0x81` with
`stateful = (0x01 ↦ tall)` decodes to `Released("tall")`. -/
theorem c6_witness :
    decode statelessEmpty statefulTall 0x81 = some (InputEvent.KeyReleased "tall") :=
  (c6_decoder statelessEmpty statefulTall 0x81).2.2.1 "tall"
    (by decide) (by decide) (by decide) (by decide) (by decide)

/-! ## Claim C7 -/

/-- C7 (code bug): for the byte `0x01` that misses both direct lookups,
with `stateful` containing only `0x81`, the claim says the release
lookup is skipped and the byte dropped; but the source's `u8`
subtraction `key_code - 0x80` is unguarded, so in a release build it
wraps to `0x81` and the decoder emits `Released("x")` instead of
dropping the byte (and a debug build would panic on the overflow). -/
theorem c7_wraparound :
    decode statelessEmpty statefulHigh 0x01 = some (InputEvent.KeyReleased "x") ∧
    decode statelessEmpty statefulHigh 0x01 ≠ none :=
  ⟨by decide, by decide⟩

/-! ## Claim C8 -/

theorem clickRun_ok (active : List Key) :
    ∀ (toks : List String) (ks : List Key) (toRel : List Key),
      parseAll toks = some ks →
      clickRun active toks toRel =
        ((ks.filter (fun k => !active.contains k)).map HostOp.press ++
          ((toRel ++ ks.filter (fun k => !active.contains k)).reverse.map
            HostOp.release),
         .ok active) := by
  intro toks
  induction toks with
  | nil =>
    intro ks toRel h
    simp only [parseAll] at h
    cases h
    simp [clickRun]
  | cons t rest ih =>
    intro ks toRel h
    simp only [parseAll] at h
    cases hpt : parse_key t with
    | error e2 =>
      rw [hpt] at h
      exact Option.noConfusion h
    | ok k =>
      rw [hpt] at h
      cases hrest : parseAll rest with
      | none =>
        rw [hrest] at h
        exact Option.noConfusion h
      | some ks' =>
        rw [hrest] at h
        replace h : some (k :: ks') = some ks := h
        cases h
        simp only [clickRun, hpt]
        cases hak : active.contains k with
        | true =>
          have hk : k ∈ active := contains_iff.mp hak
          rw [if_pos rfl]
          rw [ih ks' toRel hrest]
          simp [List.filter_cons, hk]
        | false =>
          have hk : k ∉ active := by
            intro hmem
            rw [contains_iff.mpr hmem] at hak
            exact Bool.noConfusion hak
          rw [if_neg Bool.false_ne_true]
          rw [ih ks' (toRel ++ [k]) hrest]
          simp [List.filter_cons, hk, List.append_assoc]

/-- C8: a `Click(s)` whose uppercased text is neither wheel direction
and whose every token parses presses exactly the parsed keys not
already active, in token order, then releases them in reverse order,
leaving already-active keys untouched and the active set unchanged;
hence a click whose tokens are all already active emits nothing. -/
theorem c8_click (active : List Key) (s : String) (ks : List Key)
    (hup : strToUpper s ≠ "WHEEL_UP") (hdn : strToUpper s ≠ "WHEEL_DOWN")
    (hp : parseAll (splitPlus s) = some ks) :
    sendKey active (TourAction.KeyClick s) =
      ((ks.filter (fun k => !active.contains k)).map HostOp.press ++
        (ks.filter (fun k => !active.contains k)).reverse.map HostOp.release,
       .ok active) ∧
    ((∀ k ∈ ks, k ∈ active) → (sendKey active (TourAction.KeyClick s)).1 = []) := by
  have h0 := clickRun_ok active (splitPlus s) ks [] hp
  simp only [List.nil_append] at h0
  have hmain : sendKey active (TourAction.KeyClick s) =
      ((ks.filter (fun k => !active.contains k)).map HostOp.press ++
        (ks.filter (fun k => !active.contains k)).reverse.map HostOp.release,
       .ok active) := by
    simp only [sendKey]
    rw [if_neg hup, if_neg hdn]
    exact h0
  refine ⟨hmain, ?_⟩
  intro hall
  have hfil : ks.filter (fun k => !active.contains k) = [] := by
    rw [List.filter_eq_nil_iff]
    intro a ha
    simp [hall a ha]
  rw [hmain, hfil]
  simp

/-- Witness for C8: a click whose only token is already held emits no
host operation at all. -/
theorem c8_witness : (sendKey [Key.Control] (TourAction.KeyClick "CTRL")).1 = [] :=
  (c8_click [Key.Control] "CTRL" [Key.Control]
    (by decide) (by decide) (by decide)).2 (by decide)

/-! ## Claim C10 -/

theorem clickRun_stops (active : List Key) (bad : String) (rest : List String)
    (e : KeySenderError) (hbad : parse_key bad = .error e) :
    ∀ (ts1 : List String) (ks1 : List Key) (toRel : List Key),
      parseAll ts1 = some ks1 →
      clickRun active (ts1 ++ bad :: rest) toRel =
        ((ks1.filter (fun k => !active.contains k)).map HostOp.press, .error e) := by
  intro ts1
  induction ts1 with
  | nil =>
    intro ks1 toRel h
    simp only [parseAll] at h
    cases h
    simp [clickRun, hbad]
  | cons t ts ih =>
    intro ks1 toRel h
    simp only [parseAll] at h
    cases hpt : parse_key t with
    | error e2 =>
      rw [hpt] at h
      exact Option.noConfusion h
    | ok k =>
      rw [hpt] at h
      cases hrest : parseAll ts with
      | none =>
        rw [hrest] at h
        exact Option.noConfusion h
      | some ks' =>
        rw [hrest] at h
        replace h : some (k :: ks') = some ks1 := h
        cases h
        simp only [List.cons_append, List.append_eq, clickRun, hpt]
        cases hak : active.contains k with
        | true =>
          have hk : k ∈ active := contains_iff.mp hak
          rw [if_pos rfl]
          rw [ih ks' toRel hrest]
          simp [List.filter_cons, hk]
        | false =>
          have hk : k ∉ active := by
            intro hmem
            rw [contains_iff.mpr hmem] at hak
            exact Bool.noConfusion hak
          rw [if_neg Bool.false_ne_true]
          rw [ih ks' (toRel ++ [k]) hrest]
          simp [List.filter_cons, hk]

/-- C10: if a token of a `Click(s)` fails to parse after earlier tokens
were processed, `send_key` stops with the `UnknownKey` error: the
output contains exactly the presses of the earlier not-already-active
keys, none of them is released, and the error is returned (so the
caller's `active_host_keys` is left unchanged) — click execution is not
atomic with respect to parse errors. -/
theorem c10_click_error (active : List Key) (s : String) (ts1 : List String)
    (bad : String) (rest : List String) (ks1 : List Key) (e : KeySenderError)
    (hup : strToUpper s ≠ "WHEEL_UP") (hdn : strToUpper s ≠ "WHEEL_DOWN")
    (hsplit : splitPlus s = ts1 ++ bad :: rest)
    (h1 : parseAll ts1 = some ks1)
    (hbad : parse_key bad = .error e)
    (hne : ks1.filter (fun k => !active.contains k) ≠ []) :
    sendKey active (TourAction.KeyClick s) =
      ((ks1.filter (fun k => !active.contains k)).map HostOp.press, .error e) ∧
    (sendKey active (TourAction.KeyClick s)).1 ≠ [] ∧
    (sendKey active (TourAction.KeyClick s)).2 = .error e := by
  have hmain : sendKey active (TourAction.KeyClick s) =
      ((ks1.filter (fun k => !active.contains k)).map HostOp.press, .error e) := by
    simp only [sendKey]
    rw [if_neg hup, if_neg hdn, hsplit]
    exact clickRun_stops active bad rest e hbad ts1 ks1 [] h1
  refine ⟨hmain, ?_, ?_⟩
  · rw [hmain]
    intro hcontra
    exact hne (by simpa using hcontra)
  · rw [hmain]

/-- Witness for C10: clicking `C+QQ+D` from an empty active set presses
`C`, then aborts on the unknown token `QQ` without releasing `C`. -/
theorem c10_witness :
    sendKey [] (TourAction.KeyClick "C+QQ+D") =
      ([HostOp.press Key.C], Except.error (KeySenderError.UnknownKey "QQ")) := by
  have h := (c10_click_error [] "C+QQ+D" ["C"] "QQ" ["D"] [Key.C]
      (KeySenderError.UnknownKey "QQ") (by decide) (by decide) (by decide)
      (by decide) (by decide) (by decide)).1
  exact h.trans (by decide)

/-! ## Claim C9 -/

/-- C9 counterexample: on a concrete load failure the process
terminates, but with exit status 0 — `main` logs the error and executes
a plain `return;`, and a Rust `main` returning `()` exits with status
0, contradicting the claimed nonzero status. -/
theorem c9_counterexample :
    mainStartup (Except.error "No such file or directory") =
      StartupOutcome.exited 0 ∧
    exitsNonzero (mainStartup (Except.error "No such file or directory")) = false :=
  ⟨rfl, rfl⟩

/-- C9 amended: when the configuration cannot be loaded the process
terminates at startup (no device thread, processor thread or UI is
started), but it exits with status 0, not a nonzero status. -/
theorem c9_exit_zero (e : String) :
    mainStartup (Except.error e) = StartupOutcome.exited 0 ∧
    exitsNonzero (mainStartup (Except.error e)) = false :=
  ⟨rfl, rfl⟩

end Routbox

